import Mathlib

/-!
Shallow embedding of the incremental page-level document-processing pipeline
(`document_processor.py`, `function_app.py`, `utils/shp_access.py`).

External effects (PDF rasterisation, vision model, embedding model, search
index, wall clock, random UUIDs) are modelled as oracle inputs: per-page
outcome records, a stream of timeout-check readings, and a stream of UUID
strings.  The Azure Table is a name-keyed association list, the local
`last_files.json` checkpoint a name-to-page association list.  Every durable
write, local write, external call and backoff sleep is logged in an event
trace so that theorems can speak about which operations a run performs.
-/

namespace Promigas

/-- Durable progress entity stored in the Azure Table
(`update_processing_state` in both `document_processor.py` and
`function_app.py`; the `last_updated` timestamp is omitted as no claim
mentions it). -/
structure Entity where
  doc_hash : String
  last_processed_page : Nat
  total_pages : Nat
  status : String
deriving DecidableEq

/-- The durable state table: association list keyed by document name
(`PartitionKey` is the constant `"documents"` in the source, so only the
`RowKey` matters). -/
abbrev Table := List (String × Entity)

/-- Model of `table_client.get_entity(partition_key="documents", row_key=name)`;
`none` models both "entity absent" and a raised lookup error, which the
callers treat identically (bare `except`). -/
def tableGet (t : Table) (name : String) : Option Entity :=
  (t.find? (fun p => p.1 == name)).map Prod.snd

/-- Model of `table_client.upsert_entity`: overwrite the record for `name`, or append
a new one. -/
def tableUpsert (t : Table) (name : String) (e : Entity) : Table :=
  if (t.find? (fun p => p.1 == name)).isSome then
    t.map (fun p => if p.1 == name then (name, e) else p)
  else
    t ++ [(name, e)]

/-- Translation of `get_processing_state(table_client, doc_name, doc_hash)` (identical in
`document_processor.py` lines 168-176 and `function_app.py` lines 29-37):
returns `(last_processed_page, fully_completed)`.  On lookup failure or
absence it returns `(0, false)`. -/
def get_processing_state (table : Table) (doc_name : String) (doc_hash : String) :
    Nat × Bool :=
  match tableGet table doc_name with
  | some e =>
      if e.doc_hash = doc_hash ∧ e.status = "completed" then
        (e.last_processed_page, true)
      else
        (e.last_processed_page, false)
  | none => (0, false)

/-- Translation of `update_processing_state(table_client, doc_name, doc_hash, last_page,
total_pages, status)`: upsert the whole durable record. -/
def update_processing_state (table : Table) (doc_name : String) (doc_hash : String)
    (last_page : Nat) (total_pages : Nat) (status : String) : Table :=
  tableUpsert table doc_name ⟨doc_hash, last_page, total_pages, status⟩

/-- The local `last_files.json` checkpoint: document name to last processed
page. -/
abbrev LocalMap := List (String × Nat)

/-- Lookup `last_files_data.get(doc_name, 0)`. -/
def localGet (m : LocalMap) (name : String) : Nat :=
  ((m.find? (fun p => p.1 == name)).map Prod.snd).getD 0

/-- Translation of `update_file_progress(file_name, current_page)` restricted to its effect
on the stored map: load, set `map[file_name] = current_page`, save. -/
def update_file_progress (m : LocalMap) (name : String) (p : Nat) : LocalMap :=
  if (m.find? (fun q => q.1 == name)).isSome then
    m.map (fun q => if q.1 == name then (name, p) else q)
  else
    m ++ [(name, p)]

/-- Outcome of one HTTP call to the search index: `ok` is status 200,
`failStatus` any other status code, `exn` a raised request exception. -/
inductive PubAttempt
  | ok
  | failStatus (code : Nat)
  | exn
deriving DecidableEq

/-- Oracle outcomes of the external calls made while processing one page:
whether rasterisation succeeds (`fitz.open` + `get_pixmap`), whether the
vision-model call succeeds, whether the embedding call succeeds, and the
outcome of each successive publish attempt (attempt `i` reads `pub[i]`,
defaulting to an exception if the list is short). -/
structure PageEnv where
  renderOk : Bool
  describeOk : Bool
  embedOk : Bool
  pub : List PubAttempt
deriving DecidableEq

/-- The all-success page environment. -/
def PageEnv.allOk : PageEnv :=
  ⟨true, true, true, [.ok, .ok, .ok]⟩

/-- Oracle outcomes for one document: whether the page-count analysis
(`fitz.open(stream=...)`) succeeds, the page count it reports, and the
per-page environments (page `i` reads `pages[i]`, defaulting to
all-success). -/
structure DocEnv where
  analyzeOk : Bool
  totalPages : Nat
  pages : List PageEnv
deriving DecidableEq

/-- A fetched document as the driver sees it: name and content hash
(`doc_info['name']`, `doc_info['hash']`; the raw bytes are only ever used
through the rasteriser, which the `DocEnv` oracle models). -/
structure DocInfo where
  name : String
  hash : String
deriving DecidableEq

/-- Observable events of a run, in execution order. `render`, `describe`
and `embed` are logged when the corresponding external call is made (the
call may still fail per the `PageEnv`); `publishAttempt` is one HTTP post
to the search index; `sleepBackoff` is a `time.sleep(retry_delay)` in the
publish retry loop; `durableWrite` is an `update_processing_state` call;
`localWrite` is an `update_file_progress` call. -/
inductive Ev
  | render (doc : String) (page : Nat)
  | describe (doc : String) (page : Nat)
  | embed (doc : String) (page : Nat)
  | publishAttempt (doc : String) (page : Nat) (id : String) (attempt : Nat)
  | sleepBackoff (secs : Nat)
  | durableWrite (doc : String) (e : Entity)
  | localWrite (doc : String) (page : Nat)
deriving DecidableEq

/-- Command-line arguments of `document_processor.py` that affect control
flow (`--max-pages`, `--dry-run`, `--reset-tracking`; `--timeout` is
subsumed by the timeout-reading stream, `--folder`/`--verbose` only affect
which documents arrive and what is logged). -/
structure Args where
  max_pages : Nat
  dry_run : Bool
  reset_tracking : Bool
deriving DecidableEq

/-- Mutable run state of `process_documents`: the durable table (if a table
client is configured), the `last_files.json` file contents, the progress
counters, the remaining UUID stream (`uuid.uuid4()` draws), the remaining
timeout-check readings (`true` = elapsed time has reached the limit), and
the event trace. -/
structure RunSt where
  table : Option Table
  localFile : LocalMap
  pages_processed : Nat
  documents_processed : Nat
  errors : Nat
  uuids : List String
  timeouts : List Bool
  trace : List Ev
deriving DecidableEq

/-- Consume the next timeout-check reading (an exhausted stream reads as
"not timed out"). -/
def nextTimeout (st : RunSt) : Bool × RunSt :=
  match st.timeouts with
  | [] => (false, st)
  | b :: rest => (b, { st with timeouts := rest })

/-- Consume the next UUID draw. -/
def nextUuid (st : RunSt) : String × RunSt :=
  match st.uuids with
  | [] => ("", st)
  | u :: rest => (u, { st with uuids := rest })

/-- Guarded durable write: `if clients['table_client']:
update_processing_state(...)`. -/
def writeDurable (st : RunSt) (name : String) (hash : String)
    (last : Nat) (total : Nat) (status : String) : RunSt :=
  match st.table with
  | none => st
  | some t =>
      { st with
        table := some (update_processing_state t name hash last total status)
        trace := st.trace ++ [Ev.durableWrite name ⟨hash, last, total, status⟩] }

/-- Local checkpoint write: `update_file_progress(doc_name, page)`. -/
def writeLocal (st : RunSt) (name : String) (p : Nat) : RunSt :=
  { st with
    localFile := update_file_progress st.localFile name p
    trace := st.trace ++ [Ev.localWrite name p] }

/-- The constant `max_retries = 3` in the publish retry loop. -/
def max_retries : Nat := 3

/-- The publish retry loop of `document_processor.py` lines 628-672, for the
non-dry-run case.  `fuel` counts the remaining loop iterations (initially
`max_retries`), `attempt` the 0-based attempt index, `retry_delay` the
current backoff.  A 200 response advances the page in both stores and
breaks; a non-200 response sleeps `retry_delay` and doubles it unless this
was the last attempt, in which case the error counter is incremented; a
request exception increments the error counter on the last attempt and
otherwise retries immediately without sleeping. -/
def indexRetry (doc_name : String) (doc_hash : String) (page_idx : Nat)
    (total_pages : Nat) (document_id : String) (penv : PageEnv) :
    Nat → Nat → Nat → RunSt → RunSt
  | 0, _, _, st => st
  | fuel + 1, attempt, retry_delay, st =>
    let st1 :=
      { st with trace := st.trace ++ [Ev.publishAttempt doc_name page_idx document_id attempt] }
    match penv.pub.getD attempt .exn with
    | .ok =>
        let st2 := { st1 with pages_processed := st1.pages_processed + 1 }
        let status := if page_idx + 1 = total_pages then "completed" else "processing"
        let st3 := writeDurable st2 doc_name doc_hash (page_idx + 1) total_pages status
        writeLocal st3 doc_name (page_idx + 1)
    | .failStatus _ =>
        if attempt < max_retries - 1 then
          indexRetry doc_name doc_hash page_idx total_pages document_id penv
            fuel (attempt + 1) (retry_delay * 2)
            { st1 with trace := st1.trace ++ [Ev.sleepBackoff retry_delay] }
        else
          { st1 with errors := st1.errors + 1 }
    | .exn =>
        if attempt = max_retries - 1 then
          { st1 with errors := st1.errors + 1 }
        else
          indexRetry doc_name doc_hash page_idx total_pages document_id penv
            fuel (attempt + 1) retry_delay st1

/-- Body of the per-page loop of `process_documents` (lines 541-681): render
the page, call the vision model, call the embedding model (failure degrades
to an empty vector but counts an error), draw a fresh UUID as the record id,
then either run the publish retry loop or, on `--dry-run`, count the page
and advance only the local checkpoint. -/
def processPage (args : Args) (doc_name : String) (doc_hash : String)
    (total_pages : Nat) (page_idx : Nat) (penv : PageEnv) (st : RunSt) : RunSt :=
  let st1 := { st with trace := st.trace ++ [Ev.render doc_name page_idx] }
  if penv.renderOk = false then
    { st1 with errors := st1.errors + 1 }
  else
    let st2 := { st1 with trace := st1.trace ++ [Ev.describe doc_name page_idx] }
    if penv.describeOk = false then
      { st2 with errors := st2.errors + 1 }
    else
      let st3 := { st2 with trace := st2.trace ++ [Ev.embed doc_name page_idx] }
      let st4 := if penv.embedOk then st3 else { st3 with errors := st3.errors + 1 }
      let (document_id, st5) := nextUuid st4
      if args.dry_run = false then
        indexRetry doc_name doc_hash page_idx total_pages document_id penv
          max_retries 0 1 st5
      else
        let st6 := { st5 with pages_processed := st5.pages_processed + 1 }
        writeLocal st6 doc_name (page_idx + 1)

/-- The page loop of `process_documents` (lines 530-685): before each page
the timeout and the page-count cap are re-checked and the loop breaks if
either is hit. -/
def pageLoop (args : Args) (doc_name : String) (doc_hash : String)
    (total_pages : Nat) (penvs : List PageEnv) :
    List Nat → RunSt → RunSt
  | [], st => st
  | page_idx :: rest, st =>
    let (tout, st1) := nextTimeout st
    if tout then st1
    else if st1.pages_processed ≥ args.max_pages then st1
    else
      pageLoop args doc_name doc_hash total_pages penvs rest
        (processPage args doc_name doc_hash total_pages page_idx
          (penvs.getD page_idx PageEnv.allOk) st1)

/-- Per-document body of `process_documents` (lines 493-688).  `snapshot` is
the `last_files_data` dictionary loaded once at run start (line 478): the
resume computation reads this snapshot, not the live file.  The durable
state is read; a page-count analysis failure counts an error and skips the
document; the resume point is the maximum of the durable page and the
snapshot entry; fully covered documents are skipped before any write;
otherwise the durable record is re-written as `processing` and the page
loop runs from the resume point, after which the document counter is
incremented. -/
def processDocument (args : Args) (snapshot : LocalMap) (doc : DocInfo)
    (denv : DocEnv) (st : RunSt) : RunSt :=
  let durable :=
    match st.table with
    | some t => get_processing_state t doc.name doc.hash
    | none => (0, false)
  if denv.analyzeOk = false then
    { st with errors := st.errors + 1 }
  else
    let total_pages := denv.totalPages
    let last_from_json := localGet snapshot doc.name
    let last_processed_page := max durable.1 last_from_json
    if last_processed_page ≥ total_pages then st
    else
      let st1 := writeDurable st doc.name doc.hash last_processed_page total_pages "processing"
      let st2 := pageLoop args doc.name doc.hash total_pages denv.pages
        (List.range' last_processed_page (total_pages - last_processed_page)) st1
      { st2 with documents_processed := st2.documents_processed + 1 }

/-- The document loop of `process_documents` (lines 482-688): before each
document the timeout and the page-count cap are checked and the whole run
stops if either is hit. -/
def docLoop (args : Args) (snapshot : LocalMap) :
    List (DocInfo × DocEnv) → RunSt → RunSt
  | [], st => st
  | (doc, denv) :: rest, st =>
    let (tout, st1) := nextTimeout st
    if tout then st1
    else if st1.pages_processed ≥ args.max_pages then st1
    else docLoop args snapshot rest (processDocument args snapshot doc denv st1)

/-- Translation of `process_documents(args)` (lines 385-702), from the point where the
document list is in hand: `--reset-tracking` empties the checkpoint file
before it is loaded; the loaded map serves both as the resume snapshot and
as the initial file contents. -/
def process_documents (args : Args) (docs : List (DocInfo × DocEnv))
    (table : Option Table) (localFile : LocalMap) (uuids : List String)
    (timeouts : List Bool) : RunSt :=
  let file0 := if args.reset_tracking then [] else localFile
  docLoop args file0 docs ⟨table, file0, 0, 0, 0, uuids, timeouts, []⟩

/-- Key sanitisation of `function_app.py` lines 430-433: each character that
is not alphanumeric or one of `_`, `-`, `=` becomes `_`.  The preceding
`NFKD`-normalise / ASCII-encode-with-ignore step is the identity on ASCII
names and drops characters with no ASCII decomposition; it is modelled here
by dropping non-ASCII characters. -/
def sanitize_doc_name (name : String) : String :=
  String.mk ((name.toList.filter (fun c => c.toNat < 128)).map
    (fun c => if c.isAlphanum ∨ c = '_' ∨ c = '-' ∨ c = '=' then c else '_'))

/-- Deterministic page id of `function_app.py` line 434:
`f"{sanitized_doc_name}_page{page_idx + 1}_image"`. -/
def funcAppDocumentId (doc_name : String) (page_idx : Nat) : String :=
  sanitize_doc_name doc_name ++ "_page" ++ toString (page_idx + 1) ++ "_image"

/-- Run state of `time_trigg_func` in `function_app.py`: no local checkpoint
file, no error counter, no UUID stream. -/
structure FRunSt where
  table : Option Table
  pages_processed : Nat
  documents_processed : Nat
  timeouts : List Bool
  trace : List Ev
deriving DecidableEq

/-- Consume the next timeout-check reading in the timer function. -/
def fNextTimeout (st : FRunSt) : Bool × FRunSt :=
  match st.timeouts with
  | [] => (false, st)
  | b :: rest => (b, { st with timeouts := rest })

/-- Guarded durable write in the timer function (`if table_client:`). -/
def fWriteDurable (st : FRunSt) (name : String) (hash : String)
    (last : Nat) (total : Nat) (status : String) : FRunSt :=
  match st.table with
  | none => st
  | some t =>
      { st with
        table := some (update_processing_state t name hash last total status)
        trace := st.trace ++ [Ev.durableWrite name ⟨hash, last, total, status⟩] }

/-- Per-page body of `time_trigg_func` (`function_app.py` lines 379-472):
render and describe failures are caught by the outer page handler and the
loop continues with no counter; embedding failure degrades to an empty
vector; the page id is the deterministic `funcAppDocumentId`; a single
publish request is made, and only a 200 response advances the durable
record (there is no retry and no local checkpoint). -/
def fProcessPage (doc_name : String) (doc_hash : String) (total_pages : Nat)
    (page_idx : Nat) (penv : PageEnv) (st : FRunSt) : FRunSt :=
  let st1 := { st with trace := st.trace ++ [Ev.render doc_name page_idx] }
  if penv.renderOk = false then st1
  else
    let st2 := { st1 with trace := st1.trace ++ [Ev.describe doc_name page_idx] }
    if penv.describeOk = false then st2
    else
      let st3 := { st2 with trace := st2.trace ++ [Ev.embed doc_name page_idx] }
      let document_id := funcAppDocumentId doc_name page_idx
      let st4 :=
        { st3 with trace := st3.trace ++ [Ev.publishAttempt doc_name page_idx document_id 0] }
      match penv.pub.getD 0 .exn with
      | .ok =>
          let st5 := { st4 with pages_processed := st4.pages_processed + 1 }
          let status := if page_idx + 1 = total_pages then "completed" else "processing"
          fWriteDurable st5 doc_name doc_hash (page_idx + 1) total_pages status
      | .failStatus _ => st4
      | .exn => st4

/-- The page loop of `time_trigg_func` (lines 368-472) with its per-page
timeout and page-cap checks. -/
def fPageLoop (max_pages : Nat) (doc_name : String) (doc_hash : String)
    (total_pages : Nat) (penvs : List PageEnv) :
    List Nat → FRunSt → FRunSt
  | [], st => st
  | page_idx :: rest, st =>
    let (tout, st1) := fNextTimeout st
    if tout then st1
    else if st1.pages_processed ≥ max_pages then st1
    else
      fPageLoop max_pages doc_name doc_hash total_pages penvs rest
        (fProcessPage doc_name doc_hash total_pages page_idx
          (penvs.getD page_idx PageEnv.allOk) st1)

/-- Per-document body of `time_trigg_func` (lines 339-475): a document whose
durable record is completed under the same hash is skipped before any other
work; an analysis failure skips the document; otherwise the durable record
is re-written as `processing` with the page read from the durable store —
with no upper-bound guard — and the page loop runs from that page. -/
def fProcessDocument (max_pages : Nat) (doc : DocInfo) (denv : DocEnv)
    (st : FRunSt) : FRunSt :=
  let durable :=
    match st.table with
    | some t => get_processing_state t doc.name doc.hash
    | none => (0, false)
  let last_processed_page := durable.1
  if durable.2 then st
  else if denv.analyzeOk = false then st
  else
    let total_pages := denv.totalPages
    let st1 := fWriteDurable st doc.name doc.hash last_processed_page total_pages "processing"
    let st2 := fPageLoop max_pages doc.name doc.hash total_pages denv.pages
      (List.range' last_processed_page (total_pages - last_processed_page)) st1
    { st2 with documents_processed := st2.documents_processed + 1 }

/-- The document loop of `time_trigg_func` (lines 328-475) with its
per-document timeout and page-cap checks. -/
def fDocLoop (max_pages : Nat) :
    List (DocInfo × DocEnv) → FRunSt → FRunSt
  | [], st => st
  | (doc, denv) :: rest, st =>
    let (tout, st1) := fNextTimeout st
    if tout then st1
    else if st1.pages_processed ≥ max_pages then st1
    else fDocLoop max_pages rest (fProcessDocument max_pages doc denv st1)

/-- Translation of `time_trigg_func` (`function_app.py` lines 201-481), from the point
where the document list is in hand. -/
def time_trigg_func (max_pages : Nat) (docs : List (DocInfo × DocEnv))
    (table : Option Table) (timeouts : List Bool) : FRunSt :=
  fDocLoop max_pages docs ⟨table, 0, 0, timeouts, []⟩

/-! ## Recursive folder lister (`utils/shp_access.py`) -/

/-- An item of the remote drive tree: a file or a folder with children
(what successive Graph `children` requests would return). -/
inductive FsItem
  | file (name : String)
  | folder (name : String) (children : List FsItem)

/-- The `item_path` construction of `list_drive_folder` (lines 66-73): inside a
named folder the path extends `parent_path` when present, else the current
folder; at the root the joined path has leading slashes stripped. -/
def mkItemPath (current_folder : String) (parent_path : String) (name : String) : String :=
  if current_folder ≠ "" then
    if parent_path ≠ "" then parent_path ++ "/" ++ name
    else current_folder ++ "/" ++ name
  else
    String.mk (((parent_path ++ "/" ++ name).toList).dropWhile (fun c => c = '/'))

/-- The `subfolder_path` construction of `list_drive_folder` (lines 78-81). -/
def mkSubfolderPath (current_folder : String) (name : String) : String :=
  if current_folder ≠ "" then current_folder ++ "/" ++ name else name

/-- The body of `list_drive_folder` (`utils/shp_access.py` lines 40-89) over
the items of one folder: `counter` is the shared mutable
`file_counter["count"]`; a subfolder is descended into recursively — the
recursive call's count mutation is kept but its returned list is discarded
(the call's result is never assigned) — while a file increments the counter
and is appended to this level's list. -/
def list_drive_folder (current_folder : String) (parent_path : String) :
    List FsItem → Nat → Nat × List String
  | [], counter => (counter, [])
  | item :: rest, counter =>
    match item with
    | .folder name children =>
        let item_path := mkItemPath current_folder parent_path name
        let subfolder_path := mkSubfolderPath current_folder name
        let counter' :=
          (list_drive_folder subfolder_path item_path children counter).1
        list_drive_folder current_folder parent_path rest counter'
    | .file name =>
        let item_path := mkItemPath current_folder parent_path name
        let res := list_drive_folder current_folder parent_path rest (counter + 1)
        (res.1, item_path :: res.2)

/-- Reference count: all files anywhere in a tree of items, nested folders
included. -/
def totalFilesIn : List FsItem → Nat
  | [] => 0
  | FsItem.file _ :: rest => totalFilesIn rest + 1
  | FsItem.folder _ children :: rest => totalFilesIn children + totalFilesIn rest

/-- Reference list: the item paths of only the files directly at this
level, in order. -/
def directFilePaths (current_folder parent_path : String) : List FsItem → List String
  | [] => []
  | FsItem.file nm :: rest =>
      mkItemPath current_folder parent_path nm ::
        directFilePaths current_folder parent_path rest
  | FsItem.folder _ _ :: rest => directFilePaths current_folder parent_path rest

/-! ## Helper lemmas -/

lemma update_file_progress_cons_ne (a : String × Nat) (m : LocalMap) (name : String)
    (p : Nat) (ha : (a.1 == name) = false) :
    update_file_progress (a :: m) name p = a :: update_file_progress m name p := by
  have ha' : ¬ a.1 = name := by simpa using ha
  rcases hm : m.find? (fun q => q.1 == name) with _ | q <;>
    simp [update_file_progress, List.find?_cons, ha, ha', hm]

lemma localGet_cons_ne (a : String × Nat) (m : LocalMap) (name : String)
    (ha : (a.1 == name) = false) : localGet (a :: m) name = localGet m name := by
  simp [localGet, List.find?_cons, ha]

/-- After `update_file_progress(name, p)` the checkpoint map reads `p` for
`name`. -/
lemma localGet_update_self (m : LocalMap) (name : String) (p : Nat) :
    localGet (update_file_progress m name p) name = p := by
  induction m with
  | nil => simp [localGet, update_file_progress]
  | cons a m ih =>
      by_cases ha : (a.1 == name) = true
      · have heq : a.1 = name := by simpa using ha
        simp [update_file_progress, List.find?_cons, ha, heq, localGet]
      · have ha' : (a.1 == name) = false := by simpa using ha
        rw [update_file_progress_cons_ne a m name p ha',
          localGet_cons_ne a (update_file_progress m name p) name ha']
        exact ih

/-- Bool test: is this event a publish attempt? -/
def isPub : Ev → Bool
  | Ev.publishAttempt _ _ _ _ => true
  | _ => false

/-- Bool test: is this event a retry-backoff sleep? -/
def isSleep : Ev → Bool
  | Ev.sleepBackoff _ => true
  | _ => false

/-! ## Trace-membership machinery

Each lemma bounds the events a driver function can append to the trace:
an event of the output trace is either an event of the input trace or
satisfies the predicate `Q`, provided `Q` covers every event the function
can emit. -/

lemma writeDurable_trace_mem (st : RunSt) (n h : String) (l tp : Nat) (s : String)
    (e : Ev) (he : e ∈ (writeDurable st n h l tp s).trace) :
    e ∈ st.trace ∨ e = Ev.durableWrite n ⟨h, l, tp, s⟩ := by
  rcases htab : st.table with _ | t
  · rw [writeDurable, htab] at he
    exact Or.inl he
  · rw [writeDurable, htab] at he
    simpa using he

lemma writeLocal_trace_mem (st : RunSt) (n : String) (p : Nat)
    (e : Ev) (he : e ∈ (writeLocal st n p).trace) :
    e ∈ st.trace ∨ e = Ev.localWrite n p := by
  rw [writeLocal] at he
  simpa using he

lemma indexRetry_trace_mem (Q : Ev → Prop) (n h : String) (p tp : Nat) (i : String)
    (penv : PageEnv)
    (hpub : ∀ a, Q (Ev.publishAttempt n p i a))
    (hslp : ∀ s, Q (Ev.sleepBackoff s))
    (hdur : Q (Ev.durableWrite n ⟨h, p + 1, tp,
        if p + 1 = tp then "completed" else "processing"⟩))
    (hloc : Q (Ev.localWrite n (p + 1))) :
    ∀ (fuel attempt delay : Nat) (st : RunSt) (e : Ev),
      e ∈ (indexRetry n h p tp i penv fuel attempt delay st).trace →
      e ∈ st.trace ∨ Q e := by
  intro fuel
  induction fuel with
  | zero =>
      intro attempt delay st e he
      exact Or.inl he
  | succ fuel ih =>
      intro attempt delay st e he
      rcases ho : penv.pub.getD attempt PubAttempt.exn with _ | c
      · rw [indexRetry] at he
        simp only [ho] at he
        rcases writeLocal_trace_mem _ _ _ _ he with he1 | he1
        · rcases writeDurable_trace_mem _ _ _ _ _ _ _ he1 with he2 | he2
          · simp only [List.mem_append, List.mem_singleton] at he2
            rcases he2 with he3 | he3
            · exact Or.inl he3
            · exact Or.inr (he3 ▸ hpub attempt)
          · exact Or.inr (he2 ▸ hdur)
        · exact Or.inr (he1 ▸ hloc)
      · rw [indexRetry] at he
        simp only [ho] at he
        by_cases hlt : attempt < max_retries - 1
        · rw [if_pos hlt] at he
          rcases ih _ _ _ _ he with he1 | he1
          · simp only [List.mem_append, List.mem_singleton] at he1
            rcases he1 with (he2 | he2) | he2
            · exact Or.inl he2
            · exact Or.inr (he2 ▸ hpub attempt)
            · exact Or.inr (he2 ▸ hslp delay)
          · exact Or.inr he1
        · rw [if_neg hlt] at he
          simp only [List.mem_append, List.mem_singleton] at he
          rcases he with he1 | he1
          · exact Or.inl he1
          · exact Or.inr (he1 ▸ hpub attempt)
      · rw [indexRetry] at he
        simp only [ho] at he
        by_cases heq : attempt = max_retries - 1
        · rw [if_pos heq] at he
          simp only [List.mem_append, List.mem_singleton] at he
          rcases he with he1 | he1
          · exact Or.inl he1
          · exact Or.inr (he1 ▸ hpub attempt)
        · rw [if_neg heq] at he
          rcases ih _ _ _ _ he with he1 | he1
          · simp only [List.mem_append, List.mem_singleton] at he1
            rcases he1 with he2 | he2
            · exact Or.inl he2
            · exact Or.inr (he2 ▸ hpub attempt)
          · exact Or.inr he1

lemma processPage_trace_mem (Q : Ev → Prop) (args : Args) (n h : String) (tp p : Nat)
    (penv : PageEnv)
    (hr : Q (Ev.render n p)) (hd : Q (Ev.describe n p)) (hem : Q (Ev.embed n p))
    (hloc : Q (Ev.localWrite n (p + 1)))
    (hwet : args.dry_run = false →
      (∀ i a, Q (Ev.publishAttempt n p i a)) ∧ (∀ s, Q (Ev.sleepBackoff s)) ∧
        Q (Ev.durableWrite n ⟨h, p + 1, tp,
            if p + 1 = tp then "completed" else "processing"⟩)) :
    ∀ (st : RunSt) (e : Ev),
      e ∈ (processPage args n h tp p penv st).trace → e ∈ st.trace ∨ Q e := by
  intro st e he
  cases hrend : penv.renderOk
  · simp [processPage, hrend] at he
    rcases he with he1 | he1
    · exact Or.inl he1
    · exact Or.inr (he1 ▸ hr)
  · cases hdesc : penv.describeOk
    · simp [processPage, hrend, hdesc] at he
      rcases he with he1 | he1 | he1
      · exact Or.inl he1
      · exact Or.inr (he1 ▸ hr)
      · exact Or.inr (he1 ▸ hd)
    · cases hdry : args.dry_run
      · -- wet run: the retry loop runs on a state whose trace already holds
        -- the render / describe / embed events
        cases hemb : penv.embedOk <;>
          rcases hu : st.uuids with _ | ⟨u, us⟩ <;>
            simp only [processPage, hrend, hdesc, hdry, hemb, hu, nextUuid,
              Bool.true_eq_false, if_false, if_true, ite_true, ite_false] at he <;>
          rcases indexRetry_trace_mem Q n h p tp _ penv ((hwet hdry).1 _)
              (hwet hdry).2.1 (hwet hdry).2.2 hloc _ _ _ _ _ he with he1 | he1 <;>
          [skip; exact Or.inr he1; skip; exact Or.inr he1;
           skip; exact Or.inr he1; skip; exact Or.inr he1] <;>
          · simp at he1
            rcases he1 with he2 | he2 | he2 | he2
            · exact Or.inl he2
            · exact Or.inr (he2 ▸ hr)
            · exact Or.inr (he2 ▸ hd)
            · exact Or.inr (he2 ▸ hem)
      · -- dry run: only the local checkpoint is written
        cases hemb : penv.embedOk <;>
          rcases hu : st.uuids with _ | ⟨u, us⟩ <;>
            simp [processPage, hrend, hdesc, hdry, hemb, hu, nextUuid, writeLocal] at he <;>
          · rcases he with he1 | he1 | he1 | he1 | he1
            · exact Or.inl he1
            · exact Or.inr (he1 ▸ hr)
            · exact Or.inr (he1 ▸ hd)
            · exact Or.inr (he1 ▸ hem)
            · exact Or.inr (he1 ▸ hloc)

lemma pageLoop_trace_mem (Q : Ev → Prop) (args : Args) (n h : String) (tp : Nat)
    (penvs : List PageEnv) :
    ∀ (pages : List Nat),
      (∀ q ∈ pages, ∀ (st : RunSt) (e : Ev),
        e ∈ (processPage args n h tp q (penvs.getD q PageEnv.allOk) st).trace →
          e ∈ st.trace ∨ Q e) →
      ∀ (st : RunSt) (e : Ev),
        e ∈ (pageLoop args n h tp penvs pages st).trace → e ∈ st.trace ∨ Q e := by
  intro pages
  induction pages with
  | nil =>
      intro _ st e he
      exact Or.inl he
  | cons q rest ih =>
      intro hq st e he
      have hqhead := hq q (List.mem_cons_self _ _)
      have hqrest : ∀ q' ∈ rest, ∀ (st : RunSt) (e : Ev),
          e ∈ (processPage args n h tp q' (penvs.getD q' PageEnv.allOk) st).trace →
            e ∈ st.trace ∨ Q e :=
        fun q' hq' => hq q' (List.mem_cons_of_mem _ hq')
      rcases hts : st.timeouts with _ | ⟨b, ts⟩
      · rw [pageLoop] at he
        simp only [nextTimeout, hts] at he
        by_cases hmax : st.pages_processed ≥ args.max_pages
        · rw [if_pos hmax] at he
          exact Or.inl he
        · rw [if_neg hmax] at he
          rcases ih hqrest _ _ he with he1 | he1
          · exact hqhead _ _ he1
          · exact Or.inr he1
      · rw [pageLoop] at he
        simp only [nextTimeout, hts] at he
        cases b
        · simp only [Bool.false_eq_true, if_false] at he
          by_cases hmax : ({ st with timeouts := ts } : RunSt).pages_processed ≥ args.max_pages
          · rw [if_pos hmax] at he
            exact Or.inl he
          · rw [if_neg hmax] at he
            rcases ih hqrest _ _ he with he1 | he1
            · exact hqhead { st with timeouts := ts } _ he1
            · exact Or.inr he1
        · simp only [if_true] at he
          exact Or.inl he

lemma processDocument_trace_mem (Q : Ev → Prop) (args : Args) (snapshot : LocalMap)
    (doc : DocInfo) (denv : DocEnv)
    (hdur0 : ∀ l, l < denv.totalPages →
      Q (Ev.durableWrite doc.name ⟨doc.hash, l, denv.totalPages, "processing"⟩))
    (hpp : ∀ q, q < denv.totalPages → ∀ (st : RunSt) (e : Ev),
      e ∈ (processPage args doc.name doc.hash denv.totalPages q
            (denv.pages.getD q PageEnv.allOk) st).trace → e ∈ st.trace ∨ Q e) :
    ∀ (st : RunSt) (e : Ev),
      e ∈ (processDocument args snapshot doc denv st).trace → e ∈ st.trace ∨ Q e := by
  intro st e he
  by_cases han : denv.analyzeOk = false
  · rw [processDocument, if_pos han] at he
    exact Or.inl he
  · rw [processDocument, if_neg han] at he
    set r := max (match st.table with
      | some t => get_processing_state t doc.name doc.hash
      | none => ((0 : Nat), false)).1 (localGet snapshot doc.name) with hr
    by_cases hskip : r ≥ denv.totalPages
    · rw [if_pos hskip] at he
      exact Or.inl he
    · rw [if_neg hskip] at he
      have hlt : r < denv.totalPages := Nat.lt_of_not_le hskip
      have hq : ∀ q ∈ List.range' r (denv.totalPages - r), ∀ (st : RunSt) (e : Ev),
          e ∈ (processPage args doc.name doc.hash denv.totalPages q
                (denv.pages.getD q PageEnv.allOk) st).trace → e ∈ st.trace ∨ Q e := by
        intro q hqmem
        have := List.mem_range'_1.mp hqmem
        exact hpp q (by omega)
      rcases pageLoop_trace_mem Q args doc.name doc.hash denv.totalPages denv.pages
          _ hq _ _ he with he1 | he1
      · rcases writeDurable_trace_mem _ _ _ _ _ _ _ he1 with he2 | he2
        · exact Or.inl he2
        · exact Or.inr (he2 ▸ hdur0 r hlt)
      · exact Or.inr he1

lemma docLoop_trace_mem (Q : Ev → Prop) (args : Args) (snapshot : LocalMap) :
    ∀ (docs : List (DocInfo × DocEnv)),
      (∀ de ∈ docs, ∀ (st : RunSt) (e : Ev),
        e ∈ (processDocument args snapshot de.1 de.2 st).trace → e ∈ st.trace ∨ Q e) →
      ∀ (st : RunSt) (e : Ev),
        e ∈ (docLoop args snapshot docs st).trace → e ∈ st.trace ∨ Q e := by
  intro docs
  induction docs with
  | nil =>
      intro _ st e he
      exact Or.inl he
  | cons de rest ih =>
      intro hdocs st e he
      have hhead := hdocs de (List.mem_cons_self _ _)
      have hrest : ∀ de' ∈ rest, ∀ (st : RunSt) (e : Ev),
          e ∈ (processDocument args snapshot de'.1 de'.2 st).trace → e ∈ st.trace ∨ Q e :=
        fun de' hde' => hdocs de' (List.mem_cons_of_mem _ hde')
      rcases hts : st.timeouts with _ | ⟨b, ts⟩
      · rw [docLoop] at he
        simp only [nextTimeout, hts] at he
        by_cases hmax : st.pages_processed ≥ args.max_pages
        · rw [if_pos hmax] at he
          exact Or.inl he
        · rw [if_neg hmax] at he
          rcases ih hrest _ _ he with he1 | he1
          · exact hhead _ _ he1
          · exact Or.inr he1
      · rw [docLoop] at he
        simp only [nextTimeout, hts] at he
        cases b
        · simp only [Bool.false_eq_true, if_false] at he
          by_cases hmax : ({ st with timeouts := ts } : RunSt).pages_processed ≥ args.max_pages
          · rw [if_pos hmax] at he
            exact Or.inl he
          · rw [if_neg hmax] at he
            rcases ih hrest _ _ he with he1 | he1
            · exact hhead { st with timeouts := ts } _ he1
            · exact Or.inr he1
        · simp only [if_true] at he
          exact Or.inl he

/-! ## Trace monotonicity: no driver function ever removes trace events -/

lemma writeDurable_timeouts (st : RunSt) (n h : String) (l tp : Nat) (s : String) :
    (writeDurable st n h l tp s).timeouts = st.timeouts := by
  rcases htab : st.table with _ | t <;> simp [writeDurable, htab]

lemma writeDurable_pages (st : RunSt) (n h : String) (l tp : Nat) (s : String) :
    (writeDurable st n h l tp s).pages_processed = st.pages_processed := by
  rcases htab : st.table with _ | t <;> simp [writeDurable, htab]

lemma indexRetry_trace_mono (n h : String) (p tp : Nat) (i : String) (penv : PageEnv) :
    ∀ (fuel attempt delay : Nat) (st : RunSt) (e : Ev),
      e ∈ st.trace → e ∈ (indexRetry n h p tp i penv fuel attempt delay st).trace := by
  intro fuel
  induction fuel with
  | zero =>
      intro a d st e he
      exact he
  | succ fuel ih =>
      intro a d st e he
      rcases ho : penv.pub.getD a PubAttempt.exn with _ | c
      · rw [indexRetry]
        simp only [ho]
        rcases htab : st.table with _ | t <;> simp [writeDurable, writeLocal, htab, he]
      · rw [indexRetry]
        simp only [ho]
        by_cases hlt : a < max_retries - 1
        · rw [if_pos hlt]
          apply ih
          simp [he]
        · rw [if_neg hlt]
          simp [he]
      · rw [indexRetry]
        simp only [ho]
        by_cases heq : a = max_retries - 1
        · rw [if_pos heq]
          simp [he]
        · rw [if_neg heq]
          apply ih
          simp [he]

lemma processPage_trace_mono (args : Args) (n h : String) (tp p : Nat) (penv : PageEnv)
    (st : RunSt) (e : Ev) (he : e ∈ st.trace) :
    e ∈ (processPage args n h tp p penv st).trace := by
  cases hrend : penv.renderOk
  · simp [processPage, hrend, he]
  · cases hdesc : penv.describeOk
    · simp [processPage, hrend, hdesc, he]
    · cases hdry : args.dry_run <;>
        cases hemb : penv.embedOk <;>
          rcases hu : st.uuids with _ | ⟨u, us⟩ <;>
            simp only [processPage, hrend, hdesc, hdry, hemb, hu, nextUuid,
              Bool.true_eq_false, if_false, if_true, ite_true, ite_false] <;>
          first
          | (apply indexRetry_trace_mono
             simp [he])
          | simp [writeLocal, he]

/-- The page rasterisation call is always logged for an attempted page,
whatever the outcomes. -/
lemma processPage_render_mem (args : Args) (n h : String) (tp p : Nat) (penv : PageEnv)
    (st : RunSt) :
    Ev.render n p ∈ (processPage args n h tp p penv st).trace := by
  cases hrend : penv.renderOk
  · simp [processPage, hrend]
  · cases hdesc : penv.describeOk
    · simp [processPage, hrend, hdesc]
    · cases hdry : args.dry_run <;>
        cases hemb : penv.embedOk <;>
          rcases hu : st.uuids with _ | ⟨u, us⟩ <;>
            simp only [processPage, hrend, hdesc, hdry, hemb, hu, nextUuid,
              Bool.true_eq_false, if_false, if_true, ite_true, ite_false] <;>
          first
          | (apply indexRetry_trace_mono
             simp)
          | simp [writeLocal]

lemma pageLoop_trace_mono (args : Args) (n h : String) (tp : Nat) (penvs : List PageEnv) :
    ∀ (pages : List Nat) (st : RunSt) (e : Ev),
      e ∈ st.trace → e ∈ (pageLoop args n h tp penvs pages st).trace := by
  intro pages
  induction pages with
  | nil =>
      intro st e he
      exact he
  | cons q rest ih =>
      intro st e he
      rcases hts : st.timeouts with _ | ⟨b, ts⟩
      · rw [pageLoop]
        simp only [nextTimeout, hts]
        by_cases hmax : st.pages_processed ≥ args.max_pages
        · rw [if_neg (by simp), if_pos hmax]
          exact he
        · rw [if_neg (by simp), if_neg hmax]
          exact ih _ _ (processPage_trace_mono _ _ _ _ _ _ _ _ he)
      · rw [pageLoop]
        simp only [nextTimeout, hts]
        cases b
        · simp only [Bool.false_eq_true, if_false]
          by_cases hmax : ({ st with timeouts := ts } : RunSt).pages_processed ≥ args.max_pages
          · rw [if_pos hmax]
            exact he
          · rw [if_neg hmax]
            exact ih _ _ (processPage_trace_mono _ _ _ _ _ _ _ _ he)
        · simp only [if_true]
          exact he

/-! ## C3 — effective resume point -/

/-- C3: processing of a document resumes exactly at
`max(durableLastProcessedPage, localMap.get(name, 0))`: (1) every render
event the document step adds is for a page at or above that maximum, and
(2) when the maximum is below the page count (and neither budget has been
hit) the page at exactly that maximum is rendered.  A name absent from the
local snapshot contributes `localGet`'s default 0 to the maximum. -/
theorem C3_effective_resume :
    ∀ (args : Args) (snapshot : LocalMap) (doc : DocInfo) (denv : DocEnv)
      (st : RunSt) (t : Table),
      st.table = some t →
      denv.analyzeOk = true →
      (∀ e ∈ (processDocument args snapshot doc denv st).trace,
        e ∈ st.trace ∨ ∀ q, e = Ev.render doc.name q →
          max (get_processing_state t doc.name doc.hash).1 (localGet snapshot doc.name) ≤ q) ∧
      (max (get_processing_state t doc.name doc.hash).1 (localGet snapshot doc.name)
          < denv.totalPages →
       st.timeouts = [] →
       st.pages_processed < args.max_pages →
       Ev.render doc.name
           (max (get_processing_state t doc.name doc.hash).1 (localGet snapshot doc.name))
         ∈ (processDocument args snapshot doc denv st).trace) := by
  intro args snapshot doc denv st t htab han
  constructor
  · intro e he
    rw [processDocument] at he
    simp only [htab] at he
    rw [if_neg (by simp [han])] at he
    set r := max (get_processing_state t doc.name doc.hash).1 (localGet snapshot doc.name)
      with hrdef
    by_cases hskip : r ≥ denv.totalPages
    · rw [if_pos hskip] at he
      exact Or.inl he
    · rw [if_neg hskip] at he
      have hq : ∀ q ∈ List.range' r (denv.totalPages - r), ∀ (st' : RunSt) (e' : Ev),
          e' ∈ (processPage args doc.name doc.hash denv.totalPages q
                (denv.pages.getD q PageEnv.allOk) st').trace →
            e' ∈ st'.trace ∨ ∀ q', e' = Ev.render doc.name q' → r ≤ q' := by
        intro q hqmem
        have hqb := List.mem_range'_1.mp hqmem
        apply processPage_trace_mem
        · intro q' heq
          injection heq with h1 h2
          omega
        · intro q' heq
          simp at heq
        · intro q' heq
          simp at heq
        · intro q' heq
          simp at heq
        · intro _
          refine ⟨fun i a q' heq => by simp at heq, fun s q' heq => by simp at heq,
            fun q' heq => by simp at heq⟩
      rcases pageLoop_trace_mem _ args doc.name doc.hash denv.totalPages denv.pages
          _ hq _ _ he with he1 | he1
      · rcases writeDurable_trace_mem _ _ _ _ _ _ _ he1 with he2 | he2
        · exact Or.inl he2
        · refine Or.inr fun q' heq => ?_
          rw [he2] at heq
          simp at heq
      · exact Or.inr he1
  · intro hlt hts hbud
    rw [processDocument]
    simp only [htab]
    rw [if_neg (by simp [han])]
    set r := max (get_processing_state t doc.name doc.hash).1 (localGet snapshot doc.name)
      with hrdef
    rw [if_neg (by omega)]
    have hrange : denv.totalPages - r = (denv.totalPages - r - 1) + 1 := by omega
    rw [hrange]
    set st1 := writeDurable st doc.name doc.hash r denv.totalPages "processing" with hst1
    have hts1 : st1.timeouts = [] := by
      rw [hst1, writeDurable_timeouts, hts]
    have hbud1 : st1.pages_processed < args.max_pages := by
      rw [hst1, writeDurable_pages]
      exact hbud
    have hcons : List.range' r (denv.totalPages - r - 1 + 1) =
        r :: List.range' (r + 1) (denv.totalPages - r - 1) := rfl
    rw [hcons]
    show Ev.render doc.name r ∈
      (pageLoop args doc.name doc.hash denv.totalPages denv.pages
        (r :: List.range' (r + 1) (denv.totalPages - r - 1)) st1).trace
    rw [pageLoop]
    simp only [nextTimeout, hts1]
    rw [if_neg (by simp), if_neg (by omega)]
    exact pageLoop_trace_mono args doc.name doc.hash denv.totalPages denv.pages _ _ _
      (processPage_render_mem args doc.name doc.hash denv.totalPages r _ st1)

/-- Witness for C3 at the spec's 5-versus-7 divergence example: durable
record says page 5, local map says page 7, the document has 9 pages — the
run starts at page 7. -/
theorem C3_effective_resume_witness :
    (∀ e ∈ (processDocument ⟨50, false, false⟩ [("a.pdf", 7)] ⟨"a.pdf", "h"⟩
        ⟨true, 9, []⟩ ⟨some [("a.pdf", ⟨"h", 5, 9, "processing"⟩)], [], 0, 0, 0,
          ["u0", "u1"], [], []⟩).trace,
      e ∈ ([] : List Ev) ∨ ∀ q, e = Ev.render "a.pdf" q →
        max (get_processing_state [("a.pdf", ⟨"h", 5, 9, "processing"⟩)] "a.pdf" "h").1
          (localGet [("a.pdf", 7)] "a.pdf") ≤ q) ∧
    Ev.render "a.pdf"
        (max (get_processing_state [("a.pdf", ⟨"h", 5, 9, "processing"⟩)] "a.pdf" "h").1
          (localGet [("a.pdf", 7)] "a.pdf"))
      ∈ (processDocument ⟨50, false, false⟩ [("a.pdf", 7)] ⟨"a.pdf", "h"⟩
        ⟨true, 9, []⟩ ⟨some [("a.pdf", ⟨"h", 5, 9, "processing"⟩)], [], 0, 0, 0,
          ["u0", "u1"], [], []⟩).trace := by
  have h := C3_effective_resume ⟨50, false, false⟩ [("a.pdf", 7)] ⟨"a.pdf", "h"⟩
    ⟨true, 9, []⟩ ⟨some [("a.pdf", ⟨"h", 5, 9, "processing"⟩)], [], 0, 0, 0,
      ["u0", "u1"], [], []⟩ [("a.pdf", ⟨"h", 5, 9, "processing"⟩)] rfl rfl
  exact ⟨h.1, h.2 (by decide) rfl (by decide)⟩

/-! ## C5 — durable record status invariant -/

/-- The claimed invariant of one durable progress record: the page cursor
never exceeds the page count, and the completed status appears exactly at
the page count. -/
def durableOk (en : Entity) : Prop :=
  en.last_processed_page ≤ en.total_pages ∧
    (en.status = "completed" ↔ en.last_processed_page = en.total_pages)

/-- A `processing` record whose cursor is below the page count is
well-formed. -/
lemma durableOk_processing (h : String) (l tp : Nat) (hl : l < tp) :
    durableOk ⟨h, l, tp, "processing"⟩ := by
  simp only [durableOk]
  refine ⟨Nat.le_of_lt hl, ?_, ?_⟩
  · intro hc
    exact absurd hc (by decide)
  · intro hc
    omega

/-- The record written on an advance after publishing page `p < tp` is
well-formed. -/
lemma durableOk_advance (h : String) (p tp : Nat) (hl : p < tp) :
    durableOk ⟨h, p + 1, tp, if p + 1 = tp then "completed" else "processing"⟩ := by
  by_cases hpt : p + 1 = tp
  · rw [if_pos hpt]
    simp only [durableOk]
    exact ⟨by omega, by simp [hpt]⟩
  · rw [if_neg hpt]
    exact durableOk_processing h (p + 1) tp (by omega)

/-- C5 counterexample: the timer function's pre-loop write violates
`lastProcessedPage ≤ totalPages`.  A document completed at 10 pages is
re-uploaded with a new hash and only 3 pages; `time_trigg_func` re-writes
the durable record as `(last 10, total 3, processing)`. -/
theorem C5_counterexample :
    Ev.durableWrite "a.pdf" ⟨"h2", 10, 3, "processing"⟩ ∈
      (time_trigg_func 20 [(⟨"a.pdf", "h2"⟩, ⟨true, 3, []⟩)]
        (some [("a.pdf", ⟨"h1", 10, 10, "completed"⟩)]) []).trace ∧
    ¬ (10 ≤ 3) := by
  exact ⟨by decide, by decide⟩

/-- C5 amended: every durable write performed by the standalone processor
(`document_processor.py`) satisfies `lastProcessedPage ≤ totalPages` with
`status = completed` exactly when the cursor equals the page count, and an
advance after a successful publish in the timer function writes the same
well-formed record; only the timer function's pre-loop `processing` write
(see the counterexample) can violate the bound. -/
theorem C5_durable_write_invariant :
    (∀ (args : Args) (docs : List (DocInfo × DocEnv)) (table : Option Table)
       (lm : LocalMap) (uuids : List String) (ts : List Bool)
       (d : String) (en : Entity),
       Ev.durableWrite d en ∈ (process_documents args docs table lm uuids ts).trace →
       durableOk en) ∧
    (∀ (n h : String) (tp p : Nat) (penv : PageEnv) (st : FRunSt) (t : Table),
       st.table = some t →
       penv.renderOk = true →
       penv.describeOk = true →
       penv.pub.getD 0 PubAttempt.exn = PubAttempt.ok →
       p < tp →
       (fProcessPage n h tp p penv st).table =
         some (update_processing_state t n h (p + 1) tp
           (if p + 1 = tp then "completed" else "processing")) ∧
       durableOk ⟨h, p + 1, tp, if p + 1 = tp then "completed" else "processing"⟩) := by
  constructor
  · intro args docs table lm uuids ts d en he
    rw [process_documents] at he
    have hchain := docLoop_trace_mem
      (fun e => ∀ d' en', e = Ev.durableWrite d' en' → durableOk en')
      args (if args.reset_tracking then [] else lm) docs ?_ _ _ he
    · rcases hchain with h0 | h0
      · simp at h0
      · exact h0 d en rfl
    · intro de hde
      apply processDocument_trace_mem
      · intro l hl d' en' heq
        injection heq with h1 h2
        rw [← h2]
        exact durableOk_processing _ _ _ hl
      · intro q hq
        apply processPage_trace_mem
        · intro d' en' heq
          simp at heq
        · intro d' en' heq
          simp at heq
        · intro d' en' heq
          simp at heq
        · intro d' en' heq
          simp at heq
        · intro _
          refine ⟨fun i a d' en' heq => by simp at heq,
            fun s d' en' heq => by simp at heq, ?_⟩
          intro d' en' heq
          injection heq with h1 h2
          rw [← h2]
          exact durableOk_advance _ _ _ hq
  · intro n h tp p penv st t htab hrend hdesc hpub hlt
    have h0 : penv.pub[0]?.getD PubAttempt.exn = PubAttempt.ok := by
      simpa [List.getD] using hpub
    constructor
    · simp [fProcessPage, hrend, hdesc, h0, fWriteDurable, htab]
    · exact durableOk_advance _ _ _ hlt

/-- Witness for C5 amended at a concrete advance. -/
theorem C5_durable_write_invariant_witness :
    durableOk ⟨"h", 2, 3, "processing"⟩ ∧
    (fProcessPage "a" "h" 3 1 PageEnv.allOk ⟨some [], 0, 0, [], []⟩).table =
      some (update_processing_state [] "a" "h" 2 3
        (if 1 + 1 = 3 then "completed" else "processing")) := by
  have h2 := C5_durable_write_invariant.2 "a" "h" 3 1 PageEnv.allOk
    ⟨some [], 0, 0, [], []⟩ [] rfl rfl rfl (by decide) (by decide)
  have h1 := C5_durable_write_invariant.1 ⟨20, false, false⟩
    [(⟨"a", "h"⟩, ⟨true, 3, []⟩)] (some []) [] ["u0", "u1", "u2"] []
    "a" ⟨"h", 2, 3, "processing"⟩ (by decide)
  exact ⟨h1, h2.1⟩

/-! ## C9 — dry-run behaviour -/

/-- C9: with `--dry-run` no publish request is ever made, and the per-page
step updates the local checkpoint file and the pages counter exactly as the
non-dry-run step does when its publish succeeds on the first attempt. -/
theorem C9_dry_run :
    (∀ (args : Args) (docs : List (DocInfo × DocEnv)) (table : Option Table)
       (lm : LocalMap) (uuids : List String) (ts : List Bool)
       (d : String) (p : Nat) (i : String) (a : Nat),
       args.dry_run = true →
       Ev.publishAttempt d p i a ∉ (process_documents args docs table lm uuids ts).trace) ∧
    (∀ (argsD argsW : Args) (n h : String) (tp p : Nat) (penv : PageEnv) (st : RunSt),
       argsD.dry_run = true →
       argsW.dry_run = false →
       penv.pub.getD 0 PubAttempt.exn = PubAttempt.ok →
       (processPage argsD n h tp p penv st).localFile =
         (processPage argsW n h tp p penv st).localFile ∧
       (processPage argsD n h tp p penv st).pages_processed =
         (processPage argsW n h tp p penv st).pages_processed) := by
  constructor
  · intro args docs table lm uuids ts d p i a hdry he
    rw [process_documents] at he
    have hchain := docLoop_trace_mem
      (fun e => ∀ d' p' i' a', e = Ev.publishAttempt d' p' i' a' → False)
      args (if args.reset_tracking then [] else lm) docs ?_ _ _ he
    · rcases hchain with h0 | h0
      · simp at h0
      · exact h0 d p i a rfl
    · intro de hde
      apply processDocument_trace_mem
      · intro l hl d' p' i' a' heq
        simp at heq
      · intro q hq
        apply processPage_trace_mem
        · intro d' p' i' a' heq
          simp at heq
        · intro d' p' i' a' heq
          simp at heq
        · intro d' p' i' a' heq
          simp at heq
        · intro d' p' i' a' heq
          simp at heq
        · intro hf
          rw [hdry] at hf
          exact absurd hf (by decide)
  · intro argsD argsW n h tp p penv st hdryD hdryW hpub
    have h0 : penv.pub[0]?.getD PubAttempt.exn = PubAttempt.ok := by
      simpa [List.getD] using hpub
    cases hrend : penv.renderOk
    · simp [processPage, hrend]
    · cases hdesc : penv.describeOk
      · simp [processPage, hrend, hdesc]
      · cases hemb : penv.embedOk <;>
          rcases hu : st.uuids with _ | ⟨u, us⟩ <;>
            rcases htab : st.table with _ | t <;>
              constructor <;>
                simp [processPage, hrend, hdesc, hemb, hu, htab, hdryD, hdryW, nextUuid,
                  max_retries, indexRetry, h0, writeDurable, writeLocal]

/-- Witness for C9 at a concrete dry run and a concrete page. -/
theorem C9_dry_run_witness :
    Ev.publishAttempt "a" 0 "u0" 0 ∉
      (process_documents ⟨5, true, false⟩ [(⟨"a", "h"⟩, ⟨true, 1, []⟩)]
        (some []) [] ["u0"] []).trace ∧
    (processPage ⟨5, true, false⟩ "a" "h" 2 0 PageEnv.allOk
        ⟨some [], [], 0, 0, 0, ["u0"], [], []⟩).localFile =
      (processPage ⟨5, false, false⟩ "a" "h" 2 0 PageEnv.allOk
        ⟨some [], [], 0, 0, 0, ["u0"], [], []⟩).localFile := by
  constructor
  · exact C9_dry_run.1 ⟨5, true, false⟩ [(⟨"a", "h"⟩, ⟨true, 1, []⟩)]
      (some []) [] ["u0"] [] "a" 0 "u0" 0 rfl
  · exact (C9_dry_run.2 ⟨5, true, false⟩ ⟨5, false, false⟩ "a" "h" 2 0 PageEnv.allOk
      ⟨some [], [], 0, 0, 0, ["u0"], [], []⟩ rfl rfl (by decide)).1

/-! ## C8 — page id determinism -/

/-- Property of an event: if it is a publish attempt, its id is the
deterministic `funcAppDocumentId` of its document and page. -/
def pubIdDet (e : Ev) : Prop :=
  ∀ d q i a, e = Ev.publishAttempt d q i a → i = funcAppDocumentId d q

lemma fWriteDurable_trace_mem (st : FRunSt) (n h : String) (l tp : Nat) (s : String)
    (e : Ev) (he : e ∈ (fWriteDurable st n h l tp s).trace) :
    e ∈ st.trace ∨ e = Ev.durableWrite n ⟨h, l, tp, s⟩ := by
  rcases htab : st.table with _ | t
  · rw [fWriteDurable, htab] at he
    exact Or.inl he
  · rw [fWriteDurable, htab] at he
    simpa using he

lemma fProcessPage_pubIdDet (n h : String) (tp p : Nat) (penv : PageEnv)
    (st : FRunSt) (e : Ev) (he : e ∈ (fProcessPage n h tp p penv st).trace) :
    e ∈ st.trace ∨ pubIdDet e := by
  have hpubId : pubIdDet (Ev.publishAttempt n p (funcAppDocumentId n p) 0) := by
    intro d q i a heq
    injection heq with e1 e2 e3 e4
    subst e1
    subst e2
    exact e3.symm
  cases hrend : penv.renderOk
  · simp [fProcessPage, hrend] at he
    rcases he with he1 | he1
    · exact Or.inl he1
    · refine Or.inr fun d q i a heq => ?_
      rw [he1] at heq
      simp at heq
  · cases hdesc : penv.describeOk
    · simp [fProcessPage, hrend, hdesc] at he
      rcases he with he1 | he1 | he1
      · exact Or.inl he1
      · refine Or.inr fun d q i a heq => ?_
        rw [he1] at heq
        simp at heq
      · refine Or.inr fun d q i a heq => ?_
        rw [he1] at heq
        simp at heq
    · have hmem4 : ∀ x, x ∈ st.trace ++ [Ev.render n p] ++ [Ev.describe n p] ++
          [Ev.embed n p] ++ [Ev.publishAttempt n p (funcAppDocumentId n p) 0] →
          x ∈ st.trace ∨ pubIdDet x := by
        intro x hx
        simp only [List.mem_append, List.mem_singleton] at hx
        rcases hx with (((hx1 | hx1) | hx1) | hx1) | hx1
        · exact Or.inl hx1
        · refine Or.inr fun d q i a heq => ?_
          rw [hx1] at heq
          simp at heq
        · refine Or.inr fun d q i a heq => ?_
          rw [hx1] at heq
          simp at heq
        · refine Or.inr fun d q i a heq => ?_
          rw [hx1] at heq
          simp at heq
        · exact Or.inr (hx1 ▸ hpubId)
      rcases ho : penv.pub.getD 0 PubAttempt.exn with _ | c <;>
        simp only [fProcessPage, hrend, hdesc, ho, Bool.true_eq_false, if_false,
          if_true, ite_true, ite_false] at he
      · rcases fWriteDurable_trace_mem _ _ _ _ _ _ _ he with he1 | he1
        · apply hmem4
          simpa using he1
        · refine Or.inr fun d q i a heq => ?_
          rw [he1] at heq
          simp at heq
      · apply hmem4
        simpa using he
      · apply hmem4
        simpa using he

lemma fPageLoop_pubIdDet (mp : Nat) (n h : String) (tp : Nat) (penvs : List PageEnv) :
    ∀ (pages : List Nat) (st : FRunSt) (e : Ev),
      e ∈ (fPageLoop mp n h tp penvs pages st).trace → e ∈ st.trace ∨ pubIdDet e := by
  intro pages
  induction pages with
  | nil =>
      intro st e he
      exact Or.inl he
  | cons q rest ih =>
      intro st e he
      rcases hts : st.timeouts with _ | ⟨b, ts⟩
      · rw [fPageLoop] at he
        simp only [fNextTimeout, hts] at he
        by_cases hmax : st.pages_processed ≥ mp
        · rw [if_pos hmax] at he
          exact Or.inl he
        · rw [if_neg hmax] at he
          rcases ih _ _ he with he1 | he1
          · exact fProcessPage_pubIdDet _ _ _ _ _ _ _ he1
          · exact Or.inr he1
      · rw [fPageLoop] at he
        simp only [fNextTimeout, hts] at he
        cases b
        · simp only [Bool.false_eq_true, if_false] at he
          by_cases hmax : ({ st with timeouts := ts } : FRunSt).pages_processed ≥ mp
          · rw [if_pos hmax] at he
            exact Or.inl he
          · rw [if_neg hmax] at he
            rcases ih _ _ he with he1 | he1
            · exact fProcessPage_pubIdDet _ _ _ _ _ { st with timeouts := ts } _ he1
            · exact Or.inr he1
        · simp only [if_true] at he
          exact Or.inl he

lemma fProcessDocument_pubIdDet (mp : Nat) (doc : DocInfo) (denv : DocEnv)
    (st : FRunSt) (e : Ev) (he : e ∈ (fProcessDocument mp doc denv st).trace) :
    e ∈ st.trace ∨ pubIdDet e := by
  rw [fProcessDocument] at he
  rcases htab : st.table with _ | t
  all_goals simp only [htab] at he
  case none =>
    simp only [Bool.false_eq_true, if_false] at he
    by_cases han : denv.analyzeOk = false
    · rw [if_pos han] at he
      exact Or.inl he
    · rw [if_neg han] at he
      rcases fPageLoop_pubIdDet _ _ _ _ _ _ _ _ he with he1 | he1
      · rcases fWriteDurable_trace_mem _ _ _ _ _ _ _ he1 with he2 | he2
        · exact Or.inl he2
        · refine Or.inr fun d q i a heq => ?_
          rw [he2] at heq
          simp at heq
      · exact Or.inr he1
  case some =>
    rcases hcb : (get_processing_state t doc.name doc.hash).2 with _ | _
    · simp only [hcb, Bool.false_eq_true, if_false] at he
      by_cases han : denv.analyzeOk = false
      · rw [if_pos han] at he
        exact Or.inl he
      · rw [if_neg han] at he
        rcases fPageLoop_pubIdDet _ _ _ _ _ _ _ _ he with he1 | he1
        · rcases fWriteDurable_trace_mem _ _ _ _ _ _ _ he1 with he2 | he2
          · exact Or.inl he2
          · refine Or.inr fun d q i a heq => ?_
            rw [he2] at heq
            simp at heq
        · exact Or.inr he1
    · simp only [hcb, if_true] at he
      exact Or.inl he

lemma fDocLoop_pubIdDet (mp : Nat) :
    ∀ (docs : List (DocInfo × DocEnv)) (st : FRunSt) (e : Ev),
      e ∈ (fDocLoop mp docs st).trace → e ∈ st.trace ∨ pubIdDet e := by
  intro docs
  induction docs with
  | nil =>
      intro st e he
      exact Or.inl he
  | cons de rest ih =>
      intro st e he
      rcases hts : st.timeouts with _ | ⟨b, ts⟩
      · rw [fDocLoop] at he
        simp only [fNextTimeout, hts] at he
        by_cases hmax : st.pages_processed ≥ mp
        · rw [if_pos hmax] at he
          exact Or.inl he
        · rw [if_neg hmax] at he
          rcases ih _ _ he with he1 | he1
          · exact fProcessDocument_pubIdDet _ _ _ _ _ he1
          · exact Or.inr he1
      · rw [fDocLoop] at he
        simp only [fNextTimeout, hts] at he
        cases b
        · simp only [Bool.false_eq_true, if_false] at he
          by_cases hmax : ({ st with timeouts := ts } : FRunSt).pages_processed ≥ mp
          · rw [if_pos hmax] at he
            exact Or.inl he
          · rw [if_neg hmax] at he
            rcases ih _ _ he with he1 | he1
            · exact fProcessDocument_pubIdDet _ _ _ { st with timeouts := ts } _ he1
            · exact Or.inr he1
        · simp only [if_true] at he
          exact Or.inl he

/-- C8 counterexample: in `document_processor.py` the published record id is
a fresh `uuid.uuid4()` draw, not a function of document name and page —
two runs identical except for the drawn UUID publish page 0 of the same
document under the distinct ids `"u1"` and `"u2"`. -/
theorem C8_counterexample :
    Ev.publishAttempt "a.pdf" 0 "u1" 0 ∈
      (process_documents ⟨20, false, false⟩ [(⟨"a.pdf", "h"⟩, ⟨true, 1, [PageEnv.allOk]⟩)]
        (some []) [] ["u1"] []).trace ∧
    Ev.publishAttempt "a.pdf" 0 "u2" 0 ∈
      (process_documents ⟨20, false, false⟩ [(⟨"a.pdf", "h"⟩, ⟨true, 1, [PageEnv.allOk]⟩)]
        (some []) [] ["u2"] []).trace ∧
    "u1" ≠ "u2" := by
  exact ⟨by decide, by decide, by decide⟩

/-- C8 amended: only the timer function (`function_app.py`) uses a
deterministic page id — every publish attempt it makes for document `d`,
page `p` carries exactly `funcAppDocumentId d p`, so republish there is an
idempotent overwrite; the standalone processor instead draws a fresh random
UUID per processed page (see the counterexample). -/
theorem C8_funcapp_page_id_deterministic :
    ∀ (max_pages : Nat) (docs : List (DocInfo × DocEnv)) (table : Option Table)
      (ts : List Bool) (d : String) (p : Nat) (i : String) (a : Nat),
      Ev.publishAttempt d p i a ∈ (time_trigg_func max_pages docs table ts).trace →
      i = funcAppDocumentId d p := by
  intro mp docs table ts d p i a he
  rw [time_trigg_func] at he
  rcases fDocLoop_pubIdDet mp docs _ _ he with h0 | h0
  · simp at h0
  · exact h0 d p i a rfl

/-- Witness for C8 amended at a concrete timer-function run. -/
theorem C8_funcapp_page_id_deterministic_witness :
    "a_page1_image" = funcAppDocumentId "a" 0 := by
  exact C8_funcapp_page_id_deterministic 5 [(⟨"a", "h"⟩, ⟨true, 1, []⟩)] (some []) []
    "a" 0 "a_page1_image" 0 (by decide)

/-! ## C4 — publish retry contract -/

/-- C4 counterexample: when an attempt fails by raising an exception the
retry happens with no backoff sleep at all — with outcomes
`[exception, status 500, success]` three attempts are made but only a
single 1-second backoff occurs, so the backoff between attempts is not
exponentially increasing as claimed (it would have to be 1 s then 2 s). -/
theorem C4_counterexample :
    (indexRetry "a.pdf" "h" 0 5 "id0" ⟨true, true, true,
        [PubAttempt.exn, PubAttempt.failStatus 500, PubAttempt.ok]⟩
      max_retries 0 1 ⟨some [], [], 0, 0, 0, [], [], []⟩).trace.countP isPub = 3 ∧
    (indexRetry "a.pdf" "h" 0 5 "id0" ⟨true, true, true,
        [PubAttempt.exn, PubAttempt.failStatus 500, PubAttempt.ok]⟩
      max_retries 0 1 ⟨some [], [], 0, 0, 0, [], [], []⟩).trace.filter isSleep =
      [Ev.sleepBackoff 1] ∧
    (indexRetry "a.pdf" "h" 0 5 "id0" ⟨true, true, true,
        [PubAttempt.exn, PubAttempt.failStatus 500, PubAttempt.ok]⟩
      max_retries 0 1 ⟨some [], [], 0, 0, 0, [], [], []⟩).pages_processed = 1 := by
  exact ⟨by decide, by decide, by decide⟩

/-- C4 amended: the publisher is attempted at most 3 times and the same
record id is used on every attempt of a page; a success on the first
attempt, or after two *status* failures with the exponential 1 s / 2 s
backoff between them, advances the page exactly once in both stores; if
all three attempts fail the error counter is incremented once and neither
store is advanced; backoff sleeps, however, only separate attempts that
failed with a non-success status — an attempt that raised an exception is
retried immediately (see the counterexample). -/
theorem C4_publish_retry_contract :
    (∀ (n h : String) (p tp : Nat) (i : String) (penv : PageEnv) (st : RunSt) (t : Table),
       st.table = some t →
       penv.pub.getD 0 PubAttempt.exn = PubAttempt.ok →
       (indexRetry n h p tp i penv max_retries 0 1 st).pages_processed =
           st.pages_processed + 1 ∧
       (indexRetry n h p tp i penv max_retries 0 1 st).table =
         some (update_processing_state t n h (p + 1) tp
           (if p + 1 = tp then "completed" else "processing")) ∧
       localGet (indexRetry n h p tp i penv max_retries 0 1 st).localFile n = p + 1 ∧
       (indexRetry n h p tp i penv max_retries 0 1 st).trace =
         st.trace ++ [Ev.publishAttempt n p i 0,
           Ev.durableWrite n ⟨h, p + 1, tp, if p + 1 = tp then "completed" else "processing"⟩,
           Ev.localWrite n (p + 1)] ∧
       (indexRetry n h p tp i penv max_retries 0 1 st).errors = st.errors) ∧
    (∀ (n h : String) (p tp : Nat) (i : String) (c1 c2 : Nat) (penv : PageEnv)
       (st : RunSt) (t : Table),
       st.table = some t →
       penv.pub.getD 0 PubAttempt.exn = PubAttempt.failStatus c1 →
       penv.pub.getD 1 PubAttempt.exn = PubAttempt.failStatus c2 →
       penv.pub.getD 2 PubAttempt.exn = PubAttempt.ok →
       (indexRetry n h p tp i penv max_retries 0 1 st).pages_processed =
           st.pages_processed + 1 ∧
       (indexRetry n h p tp i penv max_retries 0 1 st).table =
         some (update_processing_state t n h (p + 1) tp
           (if p + 1 = tp then "completed" else "processing")) ∧
       localGet (indexRetry n h p tp i penv max_retries 0 1 st).localFile n = p + 1 ∧
       (indexRetry n h p tp i penv max_retries 0 1 st).trace =
         st.trace ++ [Ev.publishAttempt n p i 0, Ev.sleepBackoff 1,
           Ev.publishAttempt n p i 1, Ev.sleepBackoff 2, Ev.publishAttempt n p i 2,
           Ev.durableWrite n ⟨h, p + 1, tp, if p + 1 = tp then "completed" else "processing"⟩,
           Ev.localWrite n (p + 1)] ∧
       (indexRetry n h p tp i penv max_retries 0 1 st).errors = st.errors) ∧
    (∀ (n h : String) (p tp : Nat) (i : String) (penv : PageEnv) (st : RunSt),
       penv.pub.getD 0 PubAttempt.exn ≠ PubAttempt.ok →
       penv.pub.getD 1 PubAttempt.exn ≠ PubAttempt.ok →
       penv.pub.getD 2 PubAttempt.exn ≠ PubAttempt.ok →
       (indexRetry n h p tp i penv max_retries 0 1 st).pages_processed =
           st.pages_processed ∧
       (indexRetry n h p tp i penv max_retries 0 1 st).table = st.table ∧
       (indexRetry n h p tp i penv max_retries 0 1 st).localFile = st.localFile ∧
       (indexRetry n h p tp i penv max_retries 0 1 st).errors = st.errors + 1 ∧
       (indexRetry n h p tp i penv max_retries 0 1 st).trace.countP isPub =
         st.trace.countP isPub + 3) ∧
    (∀ (n h : String) (p tp : Nat) (i : String) (penv : PageEnv)
       (fuel attempt delay : Nat) (st : RunSt) (d : String) (q : Nat) (i' : String) (a : Nat),
       Ev.publishAttempt d q i' a ∈ (indexRetry n h p tp i penv fuel attempt delay st).trace →
       Ev.publishAttempt d q i' a ∈ st.trace ∨ i' = i) := by
  refine ⟨?_, ?_, ?_, ?_⟩
  · intro n h p tp i penv st t htab h0
    have h0' : penv.pub[0]?.getD PubAttempt.exn = PubAttempt.ok := by
      simpa [List.getD] using h0
    refine ⟨?_, ?_, ?_, ?_, ?_⟩ <;>
      simp [indexRetry, max_retries, h0', writeDurable, writeLocal, htab,
        localGet_update_self]
  · intro n h p tp i c1 c2 penv st t htab h0 h1 h2
    have h0' : penv.pub[0]?.getD PubAttempt.exn = PubAttempt.failStatus c1 := by
      simpa [List.getD] using h0
    have h1' : penv.pub[1]?.getD PubAttempt.exn = PubAttempt.failStatus c2 := by
      simpa [List.getD] using h1
    have h2' : penv.pub[2]?.getD PubAttempt.exn = PubAttempt.ok := by
      simpa [List.getD] using h2
    refine ⟨?_, ?_, ?_, ?_, ?_⟩ <;>
      simp [indexRetry, max_retries, h0', h1', h2', writeDurable, writeLocal, htab,
        localGet_update_self]
  · intro n h p tp i penv st h0 h1 h2
    have h0' : penv.pub[0]?.getD PubAttempt.exn ≠ PubAttempt.ok := by
      simpa [List.getD] using h0
    have h1' : penv.pub[1]?.getD PubAttempt.exn ≠ PubAttempt.ok := by
      simpa [List.getD] using h1
    have h2' : penv.pub[2]?.getD PubAttempt.exn ≠ PubAttempt.ok := by
      simpa [List.getD] using h2
    rcases o0 : penv.pub[0]?.getD PubAttempt.exn with _ | c0 | _
    · exact absurd o0 h0'
    · rcases o1 : penv.pub[1]?.getD PubAttempt.exn with _ | c1 | _
      · exact absurd o1 h1'
      · rcases o2 : penv.pub[2]?.getD PubAttempt.exn with _ | c2 | _
        · exact absurd o2 h2'
        · refine ⟨?_, ?_, ?_, ?_, ?_⟩ <;>
            simp [indexRetry, max_retries, o0, o1, o2, isPub,
              List.countP_append, List.countP_cons]
        · refine ⟨?_, ?_, ?_, ?_, ?_⟩ <;>
            simp [indexRetry, max_retries, o0, o1, o2, isPub,
              List.countP_append, List.countP_cons]
      · rcases o2 : penv.pub[2]?.getD PubAttempt.exn with _ | c2 | _
        · exact absurd o2 h2'
        · refine ⟨?_, ?_, ?_, ?_, ?_⟩ <;>
            simp [indexRetry, max_retries, o0, o1, o2, isPub,
              List.countP_append, List.countP_cons]
        · refine ⟨?_, ?_, ?_, ?_, ?_⟩ <;>
            simp [indexRetry, max_retries, o0, o1, o2, isPub,
              List.countP_append, List.countP_cons]
    · rcases o1 : penv.pub[1]?.getD PubAttempt.exn with _ | c1 | _
      · exact absurd o1 h1'
      · rcases o2 : penv.pub[2]?.getD PubAttempt.exn with _ | c2 | _
        · exact absurd o2 h2'
        · refine ⟨?_, ?_, ?_, ?_, ?_⟩ <;>
            simp [indexRetry, max_retries, o0, o1, o2, isPub,
              List.countP_append, List.countP_cons]
        · refine ⟨?_, ?_, ?_, ?_, ?_⟩ <;>
            simp [indexRetry, max_retries, o0, o1, o2, isPub,
              List.countP_append, List.countP_cons]
      · rcases o2 : penv.pub[2]?.getD PubAttempt.exn with _ | c2 | _
        · exact absurd o2 h2'
        · refine ⟨?_, ?_, ?_, ?_, ?_⟩ <;>
            simp [indexRetry, max_retries, o0, o1, o2, isPub,
              List.countP_append, List.countP_cons]
        · refine ⟨?_, ?_, ?_, ?_, ?_⟩ <;>
            simp [indexRetry, max_retries, o0, o1, o2, isPub,
              List.countP_append, List.countP_cons]
  · intro n h p tp i penv fuel attempt delay st d q i' a he
    have hQ := indexRetry_trace_mem
      (fun e => ∀ d' q' i'' a', e = Ev.publishAttempt d' q' i'' a' → i'' = i)
      n h p tp i penv ?_ ?_ ?_ ?_ fuel attempt delay st _ he
    · rcases hQ with h0 | h0
      · exact Or.inl h0
      · exact Or.inr (h0 d q i' a rfl)
    · intro a' d' q' i'' a'' heq
      injection heq with e1 e2 e3 e4
      exact e3.symm
    · intro s d' q' i'' a'' heq
      simp at heq
    · intro d' q' i'' a'' heq
      simp at heq
    · intro d' q' i'' a'' heq
      simp at heq

/-- Witness for C4 amended: a first-attempt success, a
fail-fail-success retry, and a total failure, at concrete inputs. -/
theorem C4_publish_retry_contract_witness :
    (indexRetry "a" "h" 0 2 "id0" ⟨true, true, true, [PubAttempt.ok]⟩
      max_retries 0 1 ⟨some [], [], 0, 0, 0, [], [], []⟩).pages_processed = 0 + 1 ∧
    (indexRetry "a" "h" 1 2 "id1" ⟨true, true, true,
        [PubAttempt.failStatus 500, PubAttempt.failStatus 503, PubAttempt.ok]⟩
      max_retries 0 1 ⟨some [], [], 0, 0, 0, [], [], []⟩).trace =
      [] ++ [Ev.publishAttempt "a" 1 "id1" 0, Ev.sleepBackoff 1,
        Ev.publishAttempt "a" 1 "id1" 1, Ev.sleepBackoff 2, Ev.publishAttempt "a" 1 "id1" 2,
        Ev.durableWrite "a" ⟨"h", 1 + 1, 2, if 1 + 1 = 2 then "completed" else "processing"⟩,
        Ev.localWrite "a" (1 + 1)] ∧
    (indexRetry "a" "h" 0 2 "id2" ⟨true, true, true,
        [PubAttempt.failStatus 500, PubAttempt.exn, PubAttempt.failStatus 404]⟩
      max_retries 0 1 ⟨some [], [], 0, 0, 0, [], [], []⟩).errors = 0 + 1 := by
  refine ⟨?_, ?_, ?_⟩
  · exact (C4_publish_retry_contract.1 "a" "h" 0 2 "id0" ⟨true, true, true, [PubAttempt.ok]⟩
      ⟨some [], [], 0, 0, 0, [], [], []⟩ [] rfl (by decide)).1
  · exact (C4_publish_retry_contract.2.1 "a" "h" 1 2 "id1" 500 503 ⟨true, true, true,
      [PubAttempt.failStatus 500, PubAttempt.failStatus 503, PubAttempt.ok]⟩
      ⟨some [], [], 0, 0, 0, [], [], []⟩ [] rfl (by decide) (by decide) (by decide)).2.2.2.1
  · exact (C4_publish_retry_contract.2.2.1 "a" "h" 0 2 "id2" ⟨true, true, true,
      [PubAttempt.failStatus 500, PubAttempt.exn, PubAttempt.failStatus 404]⟩
      ⟨some [], [], 0, 0, 0, [], [], []⟩ (by decide) (by decide) (by decide)).2.2.2.1

/-- C7: re-running the driver on a document whose durable record has
`status = completed` and whose content hash is unchanged (hence the same
page count and, by the completion invariant, `lastProcessedPage =
totalPages`) performs zero page operations and leaves the run state —
both progress stores included — literally unchanged.  First conjunct:
`process_documents` in `document_processor.py`; second conjunct:
`time_trigg_func` in `function_app.py`, which skips on the
`is_completed` flag before even opening the document. -/
theorem C7_completed_idempotent :
    (∀ (args : Args) (snapshot : LocalMap) (doc : DocInfo) (denv : DocEnv)
       (st : RunSt) (t : Table) (e : Entity),
       st.table = some t →
       tableGet t doc.name = some e →
       e.status = "completed" →
       e.doc_hash = doc.hash →
       e.last_processed_page = e.total_pages →
       denv.totalPages = e.total_pages →
       denv.analyzeOk = true →
       processDocument args snapshot doc denv st = st) ∧
    (∀ (max_pages : Nat) (doc : DocInfo) (denv : DocEnv)
       (st : FRunSt) (t : Table) (e : Entity),
       st.table = some t →
       tableGet t doc.name = some e →
       e.status = "completed" →
       e.doc_hash = doc.hash →
       fProcessDocument max_pages doc denv st = st) := by
  constructor
  · intro args snapshot doc denv st t e htab hent hstat hhash hlast htot han
    have hge : denv.totalPages ≤ max e.last_processed_page (localGet snapshot doc.name) := by
      rw [htot, ← hlast]
      exact le_max_left _ _
    simp [processDocument, htab, get_processing_state, hent, hstat, hhash, han, hge]
  · intro mp doc denv st t e htab hent hstat hhash
    simp [fProcessDocument, htab, get_processing_state, hent, hstat, hhash]

/-- Witness for C7 at a concrete completed document. -/
theorem C7_completed_idempotent_witness :
    processDocument ⟨1, false, false⟩ [] ⟨"a", "h"⟩ ⟨true, 2, []⟩
      ⟨some [("a", ⟨"h", 2, 2, "completed"⟩)], [], 0, 0, 0, [], [], []⟩ =
      ⟨some [("a", ⟨"h", 2, 2, "completed"⟩)], [], 0, 0, 0, [], [], []⟩ ∧
    fProcessDocument 1 ⟨"a", "h"⟩ ⟨true, 2, []⟩
      ⟨some [("a", ⟨"h", 2, 2, "completed"⟩)], 0, 0, [], []⟩ =
      ⟨some [("a", ⟨"h", 2, 2, "completed"⟩)], 0, 0, [], []⟩ := by
  exact ⟨C7_completed_idempotent.1 _ _ _ _ _ _ ⟨"h", 2, 2, "completed"⟩
           rfl (by decide) rfl rfl rfl rfl rfl,
         C7_completed_idempotent.2 _ _ _ _ _ ⟨"h", 2, 2, "completed"⟩
           rfl (by decide) rfl rfl⟩

/-! ## C2 — hash-change behaviour -/

/-- C2 counterexample: with a durable record `("h1", last 3, total 3,
completed)` and a changed hash `"h2"`, `get_processing_state` returns the
stored page 3 — not the claimed resume point 0 — and the run performs no
work at all on the document (empty trace), so the driver does not enter
the page loop at page 0. -/
theorem C2_counterexample :
    get_processing_state [("a.pdf", ⟨"h1", 3, 3, "completed"⟩)] "a.pdf" "h2" = (3, false) ∧
    (get_processing_state [("a.pdf", ⟨"h1", 3, 3, "completed"⟩)] "a.pdf" "h2").1 ≠ 0 ∧
    (process_documents ⟨20, false, false⟩ [(⟨"a.pdf", "h2"⟩, ⟨true, 3, []⟩)]
        (some [("a.pdf", ⟨"h1", 3, 3, "completed"⟩)]) [] [] []).trace = [] := by
  exact ⟨by decide, by decide, by decide⟩

/-- C2 amended: on a hash mismatch `readState` returns the *stored*
`lastProcessedPage` with `isFullyCompleted = false`, and the driver resumes
at `max(stored, local)`; consequently a previously completed document whose
hash changed but whose page count did not grow is skipped entirely (no page
work, no writes), not reprocessed from page 0. -/
theorem C2_hash_change_behavior :
    (∀ (t : Table) (name h : String) (e : Entity),
       tableGet t name = some e →
       e.doc_hash ≠ h →
       get_processing_state t name h = (e.last_processed_page, false)) ∧
    (∀ (args : Args) (snapshot : LocalMap) (doc : DocInfo) (denv : DocEnv)
       (st : RunSt) (t : Table) (e : Entity),
       st.table = some t →
       tableGet t doc.name = some e →
       denv.analyzeOk = true →
       denv.totalPages ≤ e.last_processed_page →
       processDocument args snapshot doc denv st = st) := by
  constructor
  · intro t name h e hent hneq
    simp [get_processing_state, hent, hneq]
  · intro args snapshot doc denv st t e htab hent han htot
    have h1 : (get_processing_state t doc.name doc.hash).1 = e.last_processed_page := by
      by_cases hc : e.doc_hash = doc.hash ∧ e.status = "completed" <;>
        simp [get_processing_state, hent, hc]
    have hge : denv.totalPages ≤
        max (get_processing_state t doc.name doc.hash).1 (localGet snapshot doc.name) := by
      rw [h1]
      exact le_trans htot (le_max_left _ _)
    simp [processDocument, htab, han, hge]

/-- Witness for C2 amended at a concrete changed-hash document. -/
theorem C2_hash_change_behavior_witness :
    get_processing_state [("a", ⟨"h1", 5, 5, "completed"⟩)] "a" "h2" = (5, false) ∧
    processDocument ⟨9, false, false⟩ [] ⟨"a", "h2"⟩ ⟨true, 5, []⟩
      ⟨some [("a", ⟨"h1", 5, 5, "completed"⟩)], [], 0, 0, 0, [], [], []⟩ =
      ⟨some [("a", ⟨"h1", 5, 5, "completed"⟩)], [], 0, 0, 0, [], [], []⟩ := by
  exact ⟨C2_hash_change_behavior.1 _ _ _ ⟨"h1", 5, 5, "completed"⟩ (by decide) (by decide),
         C2_hash_change_behavior.2 _ _ _ _ _ _ ⟨"h1", 5, 5, "completed"⟩
           rfl (by decide) rfl (by decide)⟩

/-! ## C1 — page-level fault isolation -/

/-- C1 counterexample: one document of 3 pages, Describer fails on page 1
(0-based), pages 0 and 2 publish successfully in the same pass.  The claim
demands the resume cursor stay at most 1; instead both the durable record
and the local checkpoint end at 3 with `status = completed`, so the failed
page 1 is never retried. -/
theorem C1_counterexample :
    (process_documents ⟨20, false, false⟩
        [(⟨"a.pdf", "h"⟩, ⟨true, 3,
            [PageEnv.allOk, ⟨true, false, true, [.ok, .ok, .ok]⟩, PageEnv.allOk]⟩)]
        (some []) [] ["x", "y", "z"] []).table =
      some [("a.pdf", ⟨"h", 3, 3, "completed"⟩)] ∧
    localGet (process_documents ⟨20, false, false⟩
        [(⟨"a.pdf", "h"⟩, ⟨true, 3,
            [PageEnv.allOk, ⟨true, false, true, [.ok, .ok, .ok]⟩, PageEnv.allOk]⟩)]
        (some []) [] ["x", "y", "z"] []).localFile "a.pdf" = 3 ∧
    (process_documents ⟨20, false, false⟩
        [(⟨"a.pdf", "h"⟩, ⟨true, 3,
            [PageEnv.allOk, ⟨true, false, true, [.ok, .ok, .ok]⟩, PageEnv.allOk]⟩)]
        (some []) [] ["x", "y", "z"] []).errors = 1 ∧
    ¬ (3 ≤ 1) := by
  exact ⟨by decide, by decide, by decide, by decide⟩

/-- C1 amended: a successful publish of page `q` advances both cursors to
`q + 1` unconditionally — the run state carries no memory of earlier failed
pages — so a Describer failure on an intermediate page `p` does not prevent
later successful pages from moving the single-integer resume cursor past
`p`; the failed page is only retried if no later page of the document
succeeds in the same pass. -/
theorem C1_success_advances_unconditionally :
    ∀ (args : Args) (n h : String) (tp p : Nat) (penv : PageEnv) (st : RunSt) (t : Table),
      args.dry_run = false →
      st.table = some t →
      penv.renderOk = true →
      penv.describeOk = true →
      penv.pub.getD 0 .exn = .ok →
      (processPage args n h tp p penv st).table =
        some (update_processing_state t n h (p + 1) tp
          (if p + 1 = tp then "completed" else "processing")) ∧
      localGet (processPage args n h tp p penv st).localFile n = p + 1 := by
  intro args n h tp p penv st t hdry htab hrend hdesc hpub
  have h0 : penv.pub[0]?.getD PubAttempt.exn = PubAttempt.ok := by
    simpa [List.getD] using hpub
  cases hemb : penv.embedOk <;>
    rcases hu : st.uuids with _ | ⟨u, us⟩ <;>
      simp [processPage, hdry, htab, hrend, hdesc, hemb, hu, nextUuid, max_retries,
        indexRetry, h0, writeDurable, writeLocal, localGet_update_self]

/-- Witness for C1 amended at a concrete page. -/
theorem C1_success_advances_unconditionally_witness :
    (processPage ⟨9, false, false⟩ "a" "h" 4 2 PageEnv.allOk
        ⟨some [], [], 0, 0, 7, ["u"], [], []⟩).table =
      some (update_processing_state [] "a" "h" 3 4
        (if 2 + 1 = 4 then "completed" else "processing")) ∧
    localGet (processPage ⟨9, false, false⟩ "a" "h" 4 2 PageEnv.allOk
        ⟨some [], [], 0, 0, 7, ["u"], [], []⟩).localFile "a" = 2 + 1 := by
  exact C1_success_advances_unconditionally ⟨9, false, false⟩ "a" "h" 4 2 PageEnv.allOk
    ⟨some [], [], 0, 0, 7, ["u"], [], []⟩ [] rfl rfl rfl rfl (by decide)

/-! ## C6 — budget enforcement -/

/-- C6: with `maxPages = 3`, no timeout, and a single fresh 10-page document
with no failures, exactly 3 pages are published (3 publish attempts, 3
pages counted), the durable record ends at `lastProcessedPage = 3, status =
processing`, and the local checkpoint reads 3; moreover both caps are
checked before each document and again before each page: a timeout reading
of `true`, or an exhausted page budget, at either loop head stops that loop
with the state otherwise untouched. -/
theorem C6_budget_enforcement :
    ((process_documents ⟨3, false, false⟩
        [(⟨"doc.pdf", "h"⟩, ⟨true, 10, List.replicate 10 PageEnv.allOk⟩)]
        (some []) [] ["u0", "u1", "u2", "u3", "u4", "u5", "u6", "u7", "u8", "u9"]
        []).pages_processed = 3 ∧
     (process_documents ⟨3, false, false⟩
        [(⟨"doc.pdf", "h"⟩, ⟨true, 10, List.replicate 10 PageEnv.allOk⟩)]
        (some []) [] ["u0", "u1", "u2", "u3", "u4", "u5", "u6", "u7", "u8", "u9"]
        []).trace.countP
          (fun e => match e with | Ev.publishAttempt _ _ _ _ => true | _ => false) = 3 ∧
     (process_documents ⟨3, false, false⟩
        [(⟨"doc.pdf", "h"⟩, ⟨true, 10, List.replicate 10 PageEnv.allOk⟩)]
        (some []) [] ["u0", "u1", "u2", "u3", "u4", "u5", "u6", "u7", "u8", "u9"]
        []).table = some [("doc.pdf", ⟨"h", 3, 10, "processing"⟩)] ∧
     localGet (process_documents ⟨3, false, false⟩
        [(⟨"doc.pdf", "h"⟩, ⟨true, 10, List.replicate 10 PageEnv.allOk⟩)]
        (some []) [] ["u0", "u1", "u2", "u3", "u4", "u5", "u6", "u7", "u8", "u9"]
        []).localFile "doc.pdf" = 3) ∧
    (∀ (args : Args) (snapshot : LocalMap) (d : DocInfo) (de : DocEnv)
       (rest : List (DocInfo × DocEnv)) (st : RunSt) (ts : List Bool),
       st.timeouts = true :: ts →
       docLoop args snapshot ((d, de) :: rest) st = { st with timeouts := ts }) ∧
    (∀ (args : Args) (snapshot : LocalMap) (d : DocInfo) (de : DocEnv)
       (rest : List (DocInfo × DocEnv)) (st : RunSt),
       st.timeouts = [] →
       args.max_pages ≤ st.pages_processed →
       docLoop args snapshot ((d, de) :: rest) st = st) ∧
    (∀ (args : Args) (n h : String) (tp : Nat) (penvs : List PageEnv)
       (p : Nat) (rest : List Nat) (st : RunSt) (ts : List Bool),
       st.timeouts = true :: ts →
       pageLoop args n h tp penvs (p :: rest) st = { st with timeouts := ts }) ∧
    (∀ (args : Args) (n h : String) (tp : Nat) (penvs : List PageEnv)
       (p : Nat) (rest : List Nat) (st : RunSt),
       st.timeouts = [] →
       args.max_pages ≤ st.pages_processed →
       pageLoop args n h tp penvs (p :: rest) st = st) := by
  refine ⟨⟨by decide, by decide, by decide, by decide⟩, ?_, ?_, ?_, ?_⟩
  · intro args snapshot d de rest st ts hts
    simp [docLoop, nextTimeout, hts]
  · intro args snapshot d de rest st hts hmax
    simp [docLoop, nextTimeout, hts, hmax]
  · intro args n h tp penvs p rest st ts hts
    simp [pageLoop, nextTimeout, hts]
  · intro args n h tp penvs p rest st hts hmax
    simp [pageLoop, nextTimeout, hts, hmax]

/-- Witness for C6's loop-head checks at concrete states. -/
theorem C6_budget_enforcement_witness :
    docLoop ⟨3, false, false⟩ [] [(⟨"a", "h"⟩, ⟨true, 1, []⟩)]
      ⟨some [], [], 0, 0, 0, [], [true], []⟩ = ⟨some [], [], 0, 0, 0, [], [], []⟩ ∧
    pageLoop ⟨3, false, false⟩ "a" "h" 1 [] [0]
      ⟨some [], [], 3, 0, 0, [], [], []⟩ = ⟨some [], [], 3, 0, 0, [], [], []⟩ := by
  constructor
  · exact C6_budget_enforcement.2.1 ⟨3, false, false⟩ [] ⟨"a", "h"⟩ ⟨true, 1, []⟩ []
      ⟨some [], [], 0, 0, 0, [], [true], []⟩ [] rfl
  · exact C6_budget_enforcement.2.2.2.2 ⟨3, false, false⟩ "a" "h" 1 [] 0 []
      ⟨some [], [], 3, 0, 0, [], [], []⟩ rfl (by decide)

/-! ## C10 — the recursive lister drops nested files -/

/-- C10: `list_drive_folder` returns a list holding exactly the paths of
the files directly in the requested folder — the lists built by recursive
descents into subfolders are discarded — while the returned count (the
shared mutable counter) counts every file in the whole tree; hence the
count can strictly exceed the length of the returned list, as the concrete
tree with a single nested PDF shows. -/
theorem C10_nested_files_dropped :
    (∀ (current_folder parent_path : String) (items : List FsItem) (c : Nat),
       (list_drive_folder current_folder parent_path items c).1 = c + totalFilesIn items ∧
       (list_drive_folder current_folder parent_path items c).2 =
         directFilePaths current_folder parent_path items) ∧
    list_drive_folder "carpeta" "" [FsItem.folder "sub" [FsItem.file "a.pdf"]] 0 =
      (1, []) ∧
    ¬ ((1 : Nat) ≤ List.length ([] : List String)) := by
  have hgen : ∀ (current_folder parent_path : String) (items : List FsItem) (c : Nat),
      (list_drive_folder current_folder parent_path items c).1 = c + totalFilesIn items ∧
      (list_drive_folder current_folder parent_path items c).2 =
        directFilePaths current_folder parent_path items := by
    intro current_folder parent_path items c
    induction current_folder, parent_path, items, c using list_drive_folder.induct with
    | case1 cf pp c =>
        simp [list_drive_folder, totalFilesIn, directFilePaths]
    | case2 cf pp rest c nm children hip hsp hc ihA ihB ihC =>
        have hcv : hc = c + totalFilesIn children := ihA.1
        constructor
        · simp only [list_drive_folder]
          show (list_drive_folder cf pp rest hc).1 =
            c + totalFilesIn (FsItem.folder nm children :: rest)
          rw [ihC.1, hcv]
          simp [totalFilesIn]
          omega
        · simp only [list_drive_folder]
          show (list_drive_folder cf pp rest hc).2 =
            directFilePaths cf pp (FsItem.folder nm children :: rest)
          rw [ihC.2]
          simp [directFilePaths]
    | case3 cf pp rest c nm ih =>
        constructor
        · simp only [list_drive_folder]
          rw [ih.1]
          simp [totalFilesIn]
          omega
        · simp only [list_drive_folder]
          rw [ih.2]
          simp [directFilePaths]
  refine ⟨hgen, ?_, by decide⟩
  obtain ⟨h1, h2⟩ := hgen "carpeta" "" [FsItem.folder "sub" [FsItem.file "a.pdf"]] 0
  rw [Prod.ext_iff]
  constructor
  · rw [h1]
    simp [totalFilesIn]
  · rw [h2]
    simp [directFilePaths]

end Promigas
